import Mathlib

/-!
Verification of the data-preparation pipeline of `app.py` (used-vehicle
listings dashboard).  The pipeline loads a table of listings, computes
1st/99th percentile bounds for `price` and `odometer` with pandas'
linear-interpolation quantile, derives a `manufacturer` column by
`model.split(' ')[0].lower()`, filters rows by the conjunction of bound
checks, an odometer non-missing check and a manufacturer minimum-frequency
check, and feeds the result to the charts and the two manufacturer
selectors.

Modelling conventions:
* a Python `str` is a list of Unicode codepoints (`PyStr := List Nat`);
  `str.lower` is modelled on the ASCII range, which covers the data and
  the spec's examples;
* a numeric pandas cell is `Option ℚ`, `none` standing for a missing
  value / NaN; pandas comparisons against NaN are `false`, which the
  helpers `pdGE`/`pdLE` reproduce;
* `Series.quantile(q)` is `quantileOpt`: sort the non-missing values and
  linearly interpolate at position `q * (n - 1)` (numpy's "linear" rule);
  on a column with no non-missing value pandas returns NaN, hence `none`;
* a DataFrame is a `List Listing` in row order; boolean-mask filtering is
  `List.filter`.
-/

/-- A Python string, as its list of Unicode codepoints. -/
abbrev PyStr := List Nat

/-- Codepoints of a Lean string literal, to write concrete examples. -/
def strCodes (s : String) : PyStr := s.toList.map Char.toNat

/-- Python `str.lower` on one codepoint, ASCII range. -/
def charLower (c : Nat) : Nat := if 65 ≤ c ∧ c ≤ 90 then c + 32 else c

/-- Python `str.lower`. -/
def pyLower (s : PyStr) : PyStr := s.map charLower

/-- Python `str.split(' ')`: split at every single space, keeping empty
pieces; `"".split(' ') == ['']`. -/
def pySplitSpace (s : PyStr) : List PyStr :=
  s.foldr (fun c acc => if c = 32 then [] :: acc else (c :: acc.headI) :: acc.tail) [[]]

/-- Python `s.split(' ')[0]` (the split list is never empty). -/
def pyFirstToken (s : PyStr) : PyStr := (pySplitSpace s).headI

/-- The manufacturer derivation of `app.py` line 41:
`lambda x: x.split(' ')[0].lower()`. -/
def manufacturerOfModel (s : PyStr) : PyStr := pyLower (pyFirstToken s)

/-- The same lambda applied to one cell of the `model` column: a missing
cell is a float NaN in pandas, on which `.split` raises `AttributeError`. -/
def manufacturerOfCell : Option PyStr → Except String PyStr
  | none => .error "AttributeError"
  | some s => .ok (manufacturerOfModel s)

/-- One row of `vehicles_us.csv` as used by the pipeline (columns the
code reads; numeric cells may be missing).  The `model` column must hold
strings for line 41 to run at all, so it is `PyStr` here; the missing
case is covered by `manufacturerOfCell`. -/
structure Listing where
  price : Option ℚ
  odometer : Option ℚ
  model : PyStr
  condition : PyStr
  vtype : PyStr
  model_year : Option ℚ
deriving DecidableEq

/-- The derived `manufacturer` column of a row (line 40-41). -/
def manufacturer (r : Listing) : PyStr := manufacturerOfModel r.model

/-- The non-missing values of a numeric column, as pandas `dropna`. -/
def nonMissing (col : List (Option ℚ)) : List ℚ := col.filterMap id

/-- The non-missing values in ascending order. -/
def sortedVals (col : List (Option ℚ)) : List ℚ :=
  (nonMissing col).insertionSort (· ≤ ·)

/-- Entry `k` of a sorted value list, clamped to the last entry. -/
def nthClamped (v : List ℚ) (k : ℕ) : ℚ := v.getD (min k (v.length - 1)) 0

/-- Floor of a nonnegative rational, as a natural number. -/
def qfloorNat (q : ℚ) : ℕ := q.num.toNat / q.den

/-- Linear interpolation of a sorted value list at fractional position
`h` (numpy's "linear" interpolation between order statistics). -/
def interpolate (v : List ℚ) (h : ℚ) : ℚ :=
  nthClamped v (qfloorNat h) +
    (h - (qfloorNat h : ℚ)) *
      (nthClamped v (qfloorNat h + 1) - nthClamped v (qfloorNat h))

/-- pandas `Series.quantile(q)` with the default linear interpolation:
NaN (`none`) when the column has no non-missing value, otherwise the
interpolated value at position `q * (n - 1)` of the sorted values. -/
def quantileOpt (col : List (Option ℚ)) (q : ℚ) : Option ℚ :=
  let v := sortedVals col
  if v.isEmpty then none else some (interpolate v (q * ((v.length : ℚ) - 1)))

/-- `price_low = car_data['price'].quantile(0.01)` (line 32). -/
def price_low (t : List Listing) : Option ℚ :=
  quantileOpt (t.map (·.price)) (1/100)

/-- `price_high = car_data['price'].quantile(0.99)` (line 33). -/
def price_high (t : List Listing) : Option ℚ :=
  quantileOpt (t.map (·.price)) (99/100)

/-- `odometer_low = car_data['odometer'].quantile(0.01)` (line 34). -/
def odometer_low (t : List Listing) : Option ℚ :=
  quantileOpt (t.map (·.odometer)) (1/100)

/-- `odometer_high = car_data['odometer'].quantile(0.99)` (line 35). -/
def odometer_high (t : List Listing) : Option ℚ :=
  quantileOpt (t.map (·.odometer)) (99/100)

/-- `manufacturer_counts_full = car_data['manufacturer'].value_counts()`
(line 45), read off at one manufacturer. -/
def manufacturer_counts_full (t : List Listing) (m : PyStr) : ℕ :=
  t.countP (fun r => decide (manufacturer r = m))

/-- pandas `>=` between a cell and a scalar: `false` whenever either side
is NaN. -/
def pdGE (x b : Option ℚ) : Bool :=
  match x, b with
  | some a, some c => decide (c ≤ a)
  | _, _ => false

/-- pandas `<=` between a cell and a scalar: `false` whenever either side
is NaN. -/
def pdLE (x b : Option ℚ) : Bool :=
  match x, b with
  | some a, some c => decide (a ≤ c)
  | _, _ => false

/-- The row mask of lines 49-55, with the bound and frequency parameters
explicit.  `manufacturer ∈ valid_manufacturers` (line 54, with
`valid_manufacturers` the index of `manufacturer_counts_full ≥ 50`,
line 47) is membership of the row's manufacturer in the set of
manufacturers of full-table frequency at least 50. -/
def rowPassWith (pl ph ol oh : Option ℚ) (freq : PyStr → ℕ) (r : Listing) : Bool :=
  pdGE r.price pl && pdLE r.price ph &&
  r.odometer.isSome &&
  pdGE r.odometer ol && pdLE r.odometer oh &&
  decide (50 ≤ freq (manufacturer r))

/-- `df_filtered_general` (lines 49-55): the boolean-mask filter of the
full table, with all parameters computed from the full table. -/
def df_filtered_general (t : List Listing) : List Listing :=
  t.filter (rowPassWith (price_low t) (price_high t)
    (odometer_low t) (odometer_high t) (manufacturer_counts_full t))

/-- Python string `<=`: lexicographic comparison of codepoint lists. -/
def strLe : PyStr → PyStr → Bool
  | [], _ => true
  | _ :: _, [] => false
  | a :: as, b :: bs => if a < b then true else if a = b then strLe as bs else false

/-- `manufacturer_list = sorted(df_filtered_general['manufacturer'].unique().tolist())`
(lines 58-59): the duplicate-free manufacturers of the filtered table, in
ascending codepoint-lexicographic order. -/
def manufacturer_list (t : List Listing) : List PyStr :=
  (((df_filtered_general t).map manufacturer).dedup).insertionSort
    (fun a b => strLe a b = true)

/-- `manufacturer_counts = df_filtered_general['manufacturer'].value_counts()`
(line 145), read off at one manufacturer. -/
def manufacturer_counts_filtered (t : List Listing) (m : PyStr) : ℕ :=
  (df_filtered_general t).countP (fun r => decide (manufacturer r = m))

/-- The distinct manufacturers of the filtered table: the index set of
`manufacturer_counts` (line 145). -/
def distinct_manufacturers (t : List Listing) : List PyStr :=
  ((df_filtered_general t).map manufacturer).dedup

/-- What pandas `value_counts` guarantees about the order of its index
(line 145): an arrangement of the distinct manufacturers of the filtered
table in non-increasing count order.  The order of entries of equal
count is not part of the contract (it falls out of a hash table and an
unstable sort). -/
def CountDescArrangement (t : List Listing) (arr : List PyStr) : Prop :=
  arr.Perm (distinct_manufacturers t) ∧
  arr.Chain' (fun a b => manufacturer_counts_filtered t b ≤ manufacturer_counts_filtered t a)

/-- `top_manufacturers = manufacturer_counts.head(10).index` (line 148):
the first ten entries of the `value_counts` index. -/
def top_manufacturers (arr : List PyStr) : List PyStr := arr.take 10

/-- Outcome of the manufacturer-comparison section (lines 207-241). -/
inductive CompareOutput where
  | chart : List Listing → CompareOutput
  | warning : CompareOutput
  | noOutput : CompareOutput
deriving DecidableEq

/-- Python truthiness of a string: the empty string is falsy. -/
def pyTruthy (s : PyStr) : Bool := !s.isEmpty

/-- The comparison branch (lines 207-241): a violin chart over the rows
of the two selected manufacturers when `manufacturer_1 and
manufacturer_2 and manufacturer_1 != manufacturer_2` is truthy, a
warning when the selections are equal, and nothing otherwise. -/
def comparisonBranch (t : List Listing) (m1 m2 : PyStr) : CompareOutput :=
  if pyTruthy m1 && pyTruthy m2 && decide (m1 ≠ m2) then
    .chart ((df_filtered_general t).filter
      (fun r => decide (manufacturer r = m1) || decide (manufacturer r = m2)))
  else if m1 = m2 then
    .warning
  else
    .noOutput

/-! ### Helper lemmas: the floor used by the interpolation -/

theorem qfloorNat_cast_le (q : ℚ) (hq : 0 ≤ q) : (qfloorNat q : ℚ) ≤ q := by
  have hd : (0 : ℚ) < (q.den : ℚ) := by exact_mod_cast q.den_pos
  have hn : (q.num.toNat : ℤ) = q.num := Int.toNat_of_nonneg (Rat.num_nonneg.mpr hq)
  rw [qfloorNat]
  conv_rhs => rw [← Rat.num_div_den q]
  rw [le_div_iff₀ hd]
  calc ((q.num.toNat / q.den : ℕ) : ℚ) * (q.den : ℚ)
      = ((q.num.toNat / q.den * q.den : ℕ) : ℚ) := by push_cast; ring
    _ ≤ ((q.num.toNat : ℕ) : ℚ) := by
        exact_mod_cast Nat.cast_le.mpr (Nat.div_mul_le_self _ _)
    _ = (q.num : ℚ) := by exact_mod_cast hn

theorem lt_qfloorNat_add_one (q : ℚ) (hq : 0 ≤ q) : q < (qfloorNat q : ℚ) + 1 := by
  have hdp : 0 < q.den := q.den_pos
  have hd : (0 : ℚ) < (q.den : ℚ) := by exact_mod_cast hdp
  have hn : (q.num.toNat : ℤ) = q.num := Int.toNat_of_nonneg (Rat.num_nonneg.mpr hq)
  rw [qfloorNat]
  conv_lhs => rw [← Rat.num_div_den q]
  rw [div_lt_iff₀ hd]
  have hmod : q.num.toNat % q.den < q.den := Nat.mod_lt _ hdp
  have h1 : q.num.toNat = q.den * (q.num.toNat / q.den) + q.num.toNat % q.den :=
    (Nat.div_add_mod _ _).symm
  have h2 : q.den * (q.num.toNat / q.den) + q.num.toNat % q.den <
      q.den * (q.num.toNat / q.den) + q.den := Nat.add_lt_add_left hmod _
  have h3 : (q.num.toNat / q.den + 1) * q.den = q.den * (q.num.toNat / q.den) + q.den := by
    ring
  have key : q.num.toNat < (q.num.toNat / q.den + 1) * q.den := by
    rw [h3]; exact lt_of_eq_of_lt h1 h2
  calc (q.num : ℚ) = ((q.num.toNat : ℕ) : ℚ) := by exact_mod_cast hn.symm
    _ < (((q.num.toNat / q.den + 1) * q.den : ℕ) : ℚ) := by exact_mod_cast key
    _ = ((q.num.toNat / q.den : ℕ) + 1) * (q.den : ℚ) := by push_cast; ring

theorem qfloorNat_le_qfloorNat (a b : ℚ) (ha : 0 ≤ a) (hab : a ≤ b) :
    qfloorNat a ≤ qfloorNat b := by
  have hb : 0 ≤ b := le_trans ha hab
  have h1 : (qfloorNat a : ℚ) ≤ a := qfloorNat_cast_le a ha
  have h2 : b < (qfloorNat b : ℚ) + 1 := lt_qfloorNat_add_one b hb
  have : (qfloorNat a : ℚ) < (qfloorNat b : ℚ) + 1 := lt_of_le_of_lt (le_trans h1 hab) h2
  exact_mod_cast Nat.lt_succ_iff.mp (by exact_mod_cast this)

/-! ### Helper lemmas: sorted value lists and interpolation -/

theorem sortedVals_sorted (col : List (Option ℚ)) : (sortedVals col).Sorted (· ≤ ·) :=
  List.sorted_insertionSort _ _

theorem sortedVals_perm (col : List (Option ℚ)) : (sortedVals col).Perm (nonMissing col) :=
  List.perm_insertionSort _ _

theorem sortedVals_eq_nil_iff (col : List (Option ℚ)) :
    sortedVals col = [] ↔ nonMissing col = [] := by
  constructor
  · intro h
    have := (sortedVals_perm col).length_eq
    rw [h] at this
    exact List.length_eq_zero.mp this.symm
  · intro h
    have := (sortedVals_perm col).length_eq
    rw [h] at this
    exact List.length_eq_zero.mp this

theorem min_clamp_lt {v : List ℚ} (hne : v ≠ []) (k : ℕ) : min k (v.length - 1) < v.length := by
  have : 0 < v.length := List.length_pos.mpr hne
  omega

theorem nthClamped_eq_get {v : List ℚ} (hne : v ≠ []) (k : ℕ) :
    nthClamped v k = v.get ⟨min k (v.length - 1), min_clamp_lt hne k⟩ := by
  rw [nthClamped, List.getD_eq_getElem v 0 (min_clamp_lt hne k)]
  rfl

theorem nthClamped_mem {v : List ℚ} (hne : v ≠ []) (k : ℕ) : nthClamped v k ∈ v := by
  rw [nthClamped_eq_get hne k]
  exact List.get_mem _ _ _

theorem nthClamped_mono_idx {v : List ℚ} (hs : v.Sorted (· ≤ ·)) (hne : v ≠ []) {k k' : ℕ}
    (hkk' : min k (v.length - 1) ≤ min k' (v.length - 1)) :
    nthClamped v k ≤ nthClamped v k' := by
  rw [nthClamped_eq_get hne k, nthClamped_eq_get hne k']
  rcases lt_or_eq_of_le hkk' with hlt | heq
  · exact hs.rel_get_of_lt hlt
  · exact le_of_eq (congrArg _ (Fin.ext heq))

theorem nthClamped_mono {v : List ℚ} (hs : v.Sorted (· ≤ ·)) (hne : v ≠ []) {k k' : ℕ}
    (hkk' : k ≤ k') : nthClamped v k ≤ nthClamped v k' :=
  nthClamped_mono_idx hs hne (min_le_min hkk' (le_refl _))

theorem nthClamped_le_last {v : List ℚ} (hs : v.Sorted (· ≤ ·)) (hne : v ≠ []) (k : ℕ) :
    nthClamped v k ≤ nthClamped v (v.length - 1) :=
  nthClamped_mono_idx hs hne (by omega)

theorem interpolate_ge_floor {v : List ℚ} (hs : v.Sorted (· ≤ ·)) (hne : v ≠ []) {h : ℚ}
    (hh : 0 ≤ h) : nthClamped v (qfloorNat h) ≤ interpolate v h := by
  rw [interpolate]
  have hfrac : 0 ≤ h - (qfloorNat h : ℚ) := sub_nonneg.mpr (qfloorNat_cast_le h hh)
  have hab : nthClamped v (qfloorNat h) ≤ nthClamped v (qfloorNat h + 1) :=
    nthClamped_mono hs hne (Nat.le_succ _)
  nlinarith [mul_nonneg hfrac (sub_nonneg.mpr hab)]

theorem interpolate_le_next {v : List ℚ} (hs : v.Sorted (· ≤ ·)) (hne : v ≠ []) {h : ℚ}
    (hh : 0 ≤ h) : interpolate v h ≤ nthClamped v (qfloorNat h + 1) := by
  rw [interpolate]
  have hfrac : h - (qfloorNat h : ℚ) ≤ 1 := by
    have := lt_qfloorNat_add_one h hh
    linarith
  have hab : nthClamped v (qfloorNat h) ≤ nthClamped v (qfloorNat h + 1) :=
    nthClamped_mono hs hne (Nat.le_succ _)
  nlinarith [mul_le_mul_of_nonneg_right hfrac (sub_nonneg.mpr hab)]

theorem interpolate_ge_head {v : List ℚ} (hs : v.Sorted (· ≤ ·)) (hne : v ≠ []) {h : ℚ}
    (hh : 0 ≤ h) : nthClamped v 0 ≤ interpolate v h :=
  le_trans (nthClamped_mono hs hne (Nat.zero_le _)) (interpolate_ge_floor hs hne hh)

theorem interpolate_le_last {v : List ℚ} (hs : v.Sorted (· ≤ ·)) (hne : v ≠ []) {h : ℚ}
    (hh : 0 ≤ h) : interpolate v h ≤ nthClamped v (v.length - 1) :=
  le_trans (interpolate_le_next hs hne hh) (nthClamped_le_last hs hne _)

theorem interpolate_mono {v : List ℚ} (hs : v.Sorted (· ≤ ·)) (hne : v ≠ []) {h h' : ℚ}
    (hh : 0 ≤ h) (hhh' : h ≤ h') : interpolate v h ≤ interpolate v h' := by
  have hh' : 0 ≤ h' := le_trans hh hhh'
  have hii' : qfloorNat h ≤ qfloorNat h' := qfloorNat_le_qfloorNat h h' hh hhh'
  rcases eq_or_lt_of_le hii' with heq | hlt
  · rw [interpolate, interpolate, ← heq]
    have hab : nthClamped v (qfloorNat h) ≤ nthClamped v (qfloorNat h + 1) :=
      nthClamped_mono hs hne (Nat.le_succ _)
    nlinarith [mul_le_mul_of_nonneg_right (sub_le_sub_right hhh' (qfloorNat h : ℚ))
      (sub_nonneg.mpr hab)]
  · calc interpolate v h ≤ nthClamped v (qfloorNat h + 1) := interpolate_le_next hs hne hh
      _ ≤ nthClamped v (qfloorNat h') := nthClamped_mono hs hne hlt
      _ ≤ interpolate v h' := interpolate_ge_floor hs hne hh'

/-! ### Helper lemmas: the quantile -/

theorem quantileOpt_eq_none_iff (col : List (Option ℚ)) (q : ℚ) :
    quantileOpt col q = none ↔ nonMissing col = [] := by
  rw [quantileOpt]
  by_cases hv : (sortedVals col).isEmpty
  · simp only [hv, if_true]
    simp only [List.isEmpty_iff] at hv
    simp [sortedVals_eq_nil_iff col |>.mp hv]
  · simp only [hv, if_false]
    simp only [List.isEmpty_iff] at hv
    constructor
    · intro hcon
      exact absurd hcon (by simp)
    · intro hcon
      exact absurd ((sortedVals_eq_nil_iff col).mpr hcon) hv

theorem quantileOpt_eq_some (col : List (Option ℚ)) (q : ℚ) (hne : nonMissing col ≠ []) :
    quantileOpt col q =
      some (interpolate (sortedVals col) (q * (((sortedVals col).length : ℚ) - 1))) := by
  rw [quantileOpt]
  have hv : ¬ (sortedVals col).isEmpty := by
    simp only [List.isEmpty_iff]
    intro hcon
    exact hne ((sortedVals_eq_nil_iff col).mp hcon)
  simp [hv]

theorem quantileOpt_between (col : List (Option ℚ)) (q : ℚ) (hne : nonMissing col ≠ [])
    (hq : 0 ≤ q) :
    ∃ x, quantileOpt col q = some x ∧
      (∃ a ∈ nonMissing col, a ≤ x) ∧ (∃ b ∈ nonMissing col, x ≤ b) := by
  have hvne : sortedVals col ≠ [] := fun hcon => hne ((sortedVals_eq_nil_iff col).mp hcon)
  have hs := sortedVals_sorted col
  have hlen : 1 ≤ (sortedVals col).length := List.length_pos.mpr hvne
  have hh : 0 ≤ q * (((sortedVals col).length : ℚ) - 1) := by
    apply mul_nonneg hq
    have : (1 : ℚ) ≤ ((sortedVals col).length : ℚ) := by exact_mod_cast hlen
    linarith
  refine ⟨_, quantileOpt_eq_some col q hne, ⟨nthClamped (sortedVals col) 0, ?_, ?_⟩,
    ⟨nthClamped (sortedVals col) ((sortedVals col).length - 1), ?_, ?_⟩⟩
  · exact (sortedVals_perm col).mem_iff.mp (nthClamped_mem hvne 0)
  · exact interpolate_ge_head hs hvne hh
  · exact (sortedVals_perm col).mem_iff.mp (nthClamped_mem hvne _)
  · exact interpolate_le_last hs hvne hh

theorem quantileOpt_mono (col : List (Option ℚ)) (q q' : ℚ) (hne : nonMissing col ≠ [])
    (hq : 0 ≤ q) (hqq' : q ≤ q') :
    ∃ lo hi, quantileOpt col q = some lo ∧ quantileOpt col q' = some hi ∧ lo ≤ hi := by
  have hvne : sortedVals col ≠ [] := fun hcon => hne ((sortedVals_eq_nil_iff col).mp hcon)
  have hs := sortedVals_sorted col
  have hlen : 1 ≤ (sortedVals col).length := List.length_pos.mpr hvne
  have hn1 : (0 : ℚ) ≤ ((sortedVals col).length : ℚ) - 1 := by
    have : (1 : ℚ) ≤ ((sortedVals col).length : ℚ) := by exact_mod_cast hlen
    linarith
  refine ⟨_, _, quantileOpt_eq_some col q hne, quantileOpt_eq_some col q' hne, ?_⟩
  exact interpolate_mono hs hvne (mul_nonneg hq hn1)
    (mul_le_mul_of_nonneg_right hqq' hn1)

/-! ### Helper lemmas: the manufacturer deriver -/

/-- The character test behind `split(' ')`: not the space character. -/
def notSpace (c : ℕ) : Bool := decide (c ≠ 32)

theorem pyFirstToken_eq_takeWhile :
    ∀ s : PyStr, pyFirstToken s = s.takeWhile notSpace
  | [] => rfl
  | c :: cs => by
    have ih := pyFirstToken_eq_takeWhile cs
    by_cases hc : c = 32
    · subst hc
      simp [pyFirstToken, pySplitSpace, List.takeWhile_cons, notSpace]
    · have hp : notSpace c = true := by simp [notSpace, hc]
      simp only [pyFirstToken, pySplitSpace, List.foldr_cons, if_neg hc, List.takeWhile_cons, hp,
        if_true, List.headI]
      exact congrArg (c :: ·) ih

theorem space_not_mem_pyFirstToken (s : PyStr) : 32 ∉ pyFirstToken s := by
  rw [pyFirstToken_eq_takeWhile]
  intro hmem
  have := List.mem_takeWhile_imp hmem
  simp [notSpace] at this

theorem charLower_idem (c : ℕ) : charLower (charLower c) = charLower c := by
  by_cases h : 65 ≤ c ∧ c ≤ 90
  · have h1 : charLower c = c + 32 := by rw [charLower, if_pos h]
    rw [h1, charLower, if_neg (by omega)]
  · have h1 : charLower c = c := by rw [charLower, if_neg h]
    rw [h1]
    exact h1

theorem charLower_ne_space {c : ℕ} (hc : c ≠ 32) : charLower c ≠ 32 := by
  by_cases h : 65 ≤ c ∧ c ≤ 90
  · rw [charLower, if_pos h]; omega
  · rw [charLower, if_neg h]; exact hc

theorem pyLower_idem (s : PyStr) : pyLower (pyLower s) = pyLower s := by
  simp only [pyLower, List.map_map]
  exact List.map_congr_left (fun c _ => charLower_idem c)

theorem space_not_mem_pyLower {s : PyStr} (hs : 32 ∉ s) : 32 ∉ pyLower s := by
  intro hmem
  obtain ⟨c, hc, hlc⟩ := List.mem_map.mp hmem
  exact charLower_ne_space (fun hcon => hs (hcon ▸ hc)) hlc

theorem pyFirstToken_eq_self {s : PyStr} (hs : 32 ∉ s) : pyFirstToken s = s := by
  rw [pyFirstToken_eq_takeWhile]
  rw [List.takeWhile_eq_self_iff]
  intro c hc
  simp only [notSpace, decide_eq_true_eq]
  intro hcon
  exact hs (hcon ▸ hc)

theorem manufacturerOfModel_idem (s : PyStr) :
    manufacturerOfModel (manufacturerOfModel s) = manufacturerOfModel s := by
  have h1 : 32 ∉ pyFirstToken s := space_not_mem_pyFirstToken s
  have h2 : 32 ∉ manufacturerOfModel s := space_not_mem_pyLower h1
  rw [manufacturerOfModel, pyFirstToken_eq_self h2]
  exact pyLower_idem _

/-! ### Helper lemmas: pandas comparisons and the row mask -/

theorem pdGE_none_left (b : Option ℚ) : pdGE none b = false := by cases b <;> rfl

theorem pdLE_none_left (b : Option ℚ) : pdLE none b = false := by cases b <;> rfl

theorem rowPassWith_true_iff (pl ph ol oh : Option ℚ) (freq : PyStr → ℕ) (r : Listing) :
    rowPassWith pl ph ol oh freq r = true ↔
      (∃ p lo hi, r.price = some p ∧ pl = some lo ∧ ph = some hi ∧ lo ≤ p ∧ p ≤ hi) ∧
      (∃ o lo hi, r.odometer = some o ∧ ol = some lo ∧ oh = some hi ∧ lo ≤ o ∧ o ≤ hi) ∧
      50 ≤ freq (manufacturer r) := by
  rw [rowPassWith]
  cases hp : r.price <;> cases hpl : pl <;> cases hph : ph <;>
    cases ho : r.odometer <;> cases hol : ol <;> cases hoh : oh <;>
      simp [pdGE, pdLE, and_assoc]

/-! ### Helper lemmas: the lexicographic string order -/

theorem strLe_refl : ∀ a : PyStr, strLe a a = true
  | [] => rfl
  | a :: as => by
    rw [strLe, if_neg (lt_irrefl a), if_pos rfl]
    exact strLe_refl as

theorem strLe_total : ∀ a b : PyStr, strLe a b = true ∨ strLe b a = true
  | [], _ => Or.inl rfl
  | _ :: _, [] => Or.inr rfl
  | a :: as, b :: bs => by
    rcases Nat.lt_trichotomy a b with h | h | h
    · left; rw [strLe, if_pos h]
    · subst h
      rcases strLe_total as bs with ih | ih
      · left; rw [strLe, if_neg (lt_irrefl a), if_pos rfl]; exact ih
      · right; rw [strLe, if_neg (lt_irrefl a), if_pos rfl]; exact ih
    · right; rw [strLe, if_pos h]

theorem strLe_trans : ∀ a b c : PyStr,
    strLe a b = true → strLe b c = true → strLe a c = true
  | [], _, _ => fun _ _ => rfl
  | _ :: _, [], _ => by
    intro h1 _
    rw [strLe] at h1
    exact absurd h1 (by simp)
  | _ :: _, _ :: _, [] => by
    intro _ h2
    rw [strLe] at h2
    exact absurd h2 (by simp)
  | a :: as, b :: bs, c :: cs => by
    intro h1 h2
    rcases Nat.lt_trichotomy a b with hab | hab | hab
    · rcases Nat.lt_trichotomy b c with hbc | hbc | hbc
      · rw [strLe, if_pos (lt_trans hab hbc)]
      · subst hbc; rw [strLe, if_pos hab]
      · rw [strLe, if_neg (by omega), if_neg (by omega)] at h2
        exact absurd h2 (by simp)
    · subst hab
      rw [strLe, if_neg (lt_irrefl a), if_pos rfl] at h1
      rcases Nat.lt_trichotomy a c with hac | hac | hac
      · rw [strLe, if_pos hac]
      · subst hac
        rw [strLe, if_neg (lt_irrefl a), if_pos rfl] at h2 ⊢
        exact strLe_trans as bs cs h1 h2
      · rw [strLe, if_neg (by omega), if_neg (by omega)] at h2
        exact absurd h2 (by simp)
    · rw [strLe, if_neg (by omega), if_neg (by omega)] at h1
      exact absurd h1 (by simp)

/-! ### Claim theorems -/

/-- C1: the Row Filter is exact.  A row is in `df_filtered_general` iff it
is a row of the full table satisfying all active predicates at once:
price present and within the price PercentileBounds, odometer not missing
and within the odometer PercentileBounds, and its manufacturer of
full-table frequency at least 50.  The forward direction of the `↔`
contains the subset property, and the right-to-left reading rules out
false negatives; a row whose manufacturer has frequency below 50 fails
the last conjunct whatever its price/odometer, hence is excluded. -/
theorem C1_row_filter_exact (t : List Listing) (r : Listing) :
    r ∈ df_filtered_general t ↔
      r ∈ t ∧
      (∃ p lo hi, r.price = some p ∧ price_low t = some lo ∧ price_high t = some hi ∧
        lo ≤ p ∧ p ≤ hi) ∧
      (∃ o lo hi, r.odometer = some o ∧ odometer_low t = some lo ∧ odometer_high t = some hi ∧
        lo ≤ o ∧ o ≤ hi) ∧
      50 ≤ manufacturer_counts_full t (manufacturer r) := by
  rw [df_filtered_general, List.mem_filter, rowPassWith_true_iff]

/-- C2 counterexample: the deriver does not produce the sentinel
`"unknown"`: on the empty model string it produces the empty string, on a
missing model it raises `AttributeError` instead of never raising, and it
splits on the space character only, not on general whitespace (a tab is
kept inside the first token). -/
theorem C2_counterexample :
    manufacturerOfModel (strCodes "") = strCodes "" ∧
    strCodes "" ≠ strCodes "unknown" ∧
    manufacturerOfCell none = Except.error "AttributeError" ∧
    manufacturerOfModel (strCodes "a\tb") ≠ strCodes "a" := by
  refine ⟨rfl, by decide, rfl, by decide⟩

/-- C2 amended: for every string-valued `model` the deriver takes the
prefix before the first space character (not general whitespace) and
lower-cases it, raising nothing; `"Ford F-150"` yields `"ford"`; the
empty model yields the empty string, not an `"unknown"` sentinel; a
missing model raises `AttributeError`. -/
theorem C2_deriver_amended :
    (∀ s : PyStr, manufacturerOfCell (some s) =
      Except.ok (pyLower (s.takeWhile notSpace))) ∧
    manufacturerOfModel (strCodes "Ford F-150") = strCodes "ford" ∧
    manufacturerOfModel (strCodes "") = strCodes "" ∧
    manufacturerOfCell none = Except.error "AttributeError" := by
  refine ⟨fun s => ?_, by decide, rfl, rfl⟩
  show Except.ok (manufacturerOfModel s) = _
  rw [manufacturerOfModel, pyFirstToken_eq_takeWhile]

/-- C5 counterexample: on a column with no non-missing value the
percentile computation does not fail with an `EmptyColumnError` (there is
no exception at all): pandas `quantile` evaluates to NaN (`none`), and
the pipeline keeps going — on a table whose only price is missing,
`price_low` is NaN and the filter still produces a (empty) result. -/
theorem C5_counterexample :
    quantileOpt [none, none] (1/100) = none ∧
    price_low [⟨none, some 1, strCodes "x", [], [], none⟩] = none ∧
    df_filtered_general [⟨none, some 1, strCodes "x", [], [], none⟩] = [] := by
  refine ⟨rfl, rfl, rfl⟩

/-- C5 amended: percentile computation never raises; it evaluates to the
missing value (NaN, `none`) exactly when the column contains no
non-missing value, and to a numeric value on any column with at least
one non-missing value. -/
theorem C5_empty_column_amended :
    (∀ (col : List (Option ℚ)) (q : ℚ), quantileOpt col q = none ↔ nonMissing col = []) ∧
    (∀ (col : List (Option ℚ)) (q : ℚ), (quantileOpt col q).isSome ↔ nonMissing col ≠ []) := by
  refine ⟨fun col q => quantileOpt_eq_none_iff col q, fun col q => ?_⟩
  rw [Option.isSome_iff_ne_none, not_iff_not.symm, not_not, not_not]
  exact quantileOpt_eq_none_iff col q

/-- C7: the Manufacturer Deriver is idempotent and total over strings:
for every string, deriving twice equals deriving once, and applied to any
string cell (the empty string included) it returns a value and never
raises. -/
theorem C7_deriver_idempotent_total (s : PyStr) :
    manufacturerOfModel (manufacturerOfModel s) = manufacturerOfModel s ∧
    manufacturerOfCell (some s) = Except.ok (manufacturerOfModel s) :=
  ⟨manufacturerOfModel_idem s, rfl⟩

/-- C10: a row whose `price` is missing is never a member of
`df_filtered_general`: the NaN price fails both pandas bound comparisons
even though only `odometer` carries an explicit non-missing check. -/
theorem C10_missing_price_excluded (t : List Listing) (r : Listing)
    (hp : r.price = none) : r ∉ df_filtered_general t := by
  intro hmem
  rw [df_filtered_general, List.mem_filter] at hmem
  obtain ⟨-, hpass⟩ := hmem
  rw [rowPassWith, hp, pdGE_none_left] at hpass
  simp at hpass

/-- C10 witness: a concrete missing-price row is rejected. -/
theorem C10_missing_price_excluded_witness :
    (Listing.mk none (some 1) (strCodes "x") [] [] none).price = none ∧
    Listing.mk none (some 1) (strCodes "x") [] [] none ∉
      df_filtered_general [Listing.mk none (some 1) (strCodes "x") [] [] none] :=
  ⟨rfl, C10_missing_price_excluded _ _ rfl⟩

/-! ### C3: percentile bounds are ordered and inside the column's range -/

theorem quantile_bounds_min_max (col : List (Option ℚ)) (hne : nonMissing col ≠ []) :
    ∃ lo hi, quantileOpt col (1/100) = some lo ∧ quantileOpt col (99/100) = some hi ∧
      lo ≤ hi ∧
      (nonMissing col).minimum ≤ (lo : WithTop ℚ) ∧
      ((lo : ℚ) : WithBot ℚ) ≤ (nonMissing col).maximum ∧
      (nonMissing col).minimum ≤ (hi : WithTop ℚ) ∧
      ((hi : ℚ) : WithBot ℚ) ≤ (nonMissing col).maximum := by
  obtain ⟨lo, hi, hlo, hhi, hle⟩ :=
    quantileOpt_mono col (1/100) (99/100) hne (by norm_num) (by norm_num)
  obtain ⟨x, hx, ⟨a, ha, hax⟩, ⟨b, hb, hxb⟩⟩ :=
    quantileOpt_between col (1/100) hne (by norm_num)
  obtain ⟨y, hy, ⟨a', ha', hay⟩, ⟨b', hb', hyb⟩⟩ :=
    quantileOpt_between col (99/100) hne (by norm_num)
  have hxlo : x = lo := by rw [hx] at hlo; exact Option.some.inj hlo
  have hyhi : y = hi := by rw [hy] at hhi; exact Option.some.inj hhi
  subst hxlo
  subst hyhi
  refine ⟨x, y, hlo, hhi, hle, ?_, ?_, ?_, ?_⟩
  · exact le_trans (List.minimum_le_of_mem' ha) (WithTop.coe_le_coe.mpr hax)
  · exact le_trans (WithBot.coe_le_coe.mpr hxb) (List.le_maximum_of_mem' hb)
  · exact le_trans (List.minimum_le_of_mem' ha') (WithTop.coe_le_coe.mpr hay)
  · exact le_trans (WithBot.coe_le_coe.mpr hyb) (List.le_maximum_of_mem' hb')

/-- C3: for each numeric column of interest that has at least one
non-missing value, the percentile bounds exist, satisfy `low ≤ high`, and
both lie within `[min(column), max(column)]` of the full table (the
quantile being linear interpolation between order statistics, the
`interpolate`/`quantileOpt` model). -/
theorem C3_percentile_bounds (t : List Listing) :
    (nonMissing (t.map (·.price)) ≠ [] →
      ∃ lo hi, price_low t = some lo ∧ price_high t = some hi ∧ lo ≤ hi ∧
        (nonMissing (t.map (·.price))).minimum ≤ (lo : WithTop ℚ) ∧
        ((lo : ℚ) : WithBot ℚ) ≤ (nonMissing (t.map (·.price))).maximum ∧
        (nonMissing (t.map (·.price))).minimum ≤ (hi : WithTop ℚ) ∧
        ((hi : ℚ) : WithBot ℚ) ≤ (nonMissing (t.map (·.price))).maximum) ∧
    (nonMissing (t.map (·.odometer)) ≠ [] →
      ∃ lo hi, odometer_low t = some lo ∧ odometer_high t = some hi ∧ lo ≤ hi ∧
        (nonMissing (t.map (·.odometer))).minimum ≤ (lo : WithTop ℚ) ∧
        ((lo : ℚ) : WithBot ℚ) ≤ (nonMissing (t.map (·.odometer))).maximum ∧
        (nonMissing (t.map (·.odometer))).minimum ≤ (hi : WithTop ℚ) ∧
        ((hi : ℚ) : WithBot ℚ) ≤ (nonMissing (t.map (·.odometer))).maximum) :=
  ⟨fun h => quantile_bounds_min_max _ h, fun h => quantile_bounds_min_max _ h⟩

/-- Concrete two-row table for the C3 witness. -/
def tableC3 : List Listing :=
  [Listing.mk (some 1) (some 2) (strCodes "m x") [] [] none,
   Listing.mk (some 3) (some 5) (strCodes "m y") [] [] none]

/-- C3 witness: both columns of a concrete table have at least one
non-missing value, and the bounds facts hold there. -/
theorem C3_percentile_bounds_witness :
    (∃ lo hi, price_low tableC3 = some lo ∧ price_high tableC3 = some hi ∧ lo ≤ hi ∧
      (nonMissing (tableC3.map (·.price))).minimum ≤ (lo : WithTop ℚ) ∧
      ((lo : ℚ) : WithBot ℚ) ≤ (nonMissing (tableC3.map (·.price))).maximum ∧
      (nonMissing (tableC3.map (·.price))).minimum ≤ (hi : WithTop ℚ) ∧
      ((hi : ℚ) : WithBot ℚ) ≤ (nonMissing (tableC3.map (·.price))).maximum) ∧
    (∃ lo hi, odometer_low tableC3 = some lo ∧ odometer_high tableC3 = some hi ∧ lo ≤ hi ∧
      (nonMissing (tableC3.map (·.odometer))).minimum ≤ (lo : WithTop ℚ) ∧
      ((lo : ℚ) : WithBot ℚ) ≤ (nonMissing (tableC3.map (·.odometer))).maximum ∧
      (nonMissing (tableC3.map (·.odometer))).minimum ≤ (hi : WithTop ℚ) ∧
      ((hi : ℚ) : WithBot ℚ) ≤ (nonMissing (tableC3.map (·.odometer))).maximum) :=
  ⟨(C3_percentile_bounds tableC3).1 (by decide), (C3_percentile_bounds tableC3).2 (by decide)⟩

/-! ### C4: Top-K manufacturer selection -/

/-- C4 amended: for any arrangement satisfying pandas' `value_counts`
contract (non-increasing counts over the distinct manufacturers of the
filtered table), `head(10)` returns exactly `min 10 (number of distinct
manufacturers)` entries, in non-increasing count order; the relative
order of manufacturers of equal count is implementation-defined and in
particular not the ascending-name tie-break. -/
theorem C4_topk_amended (t : List Listing) (arr : List PyStr)
    (h : CountDescArrangement t arr) :
    (top_manufacturers arr).length = min 10 (distinct_manufacturers t).length ∧
    (top_manufacturers arr).Chain'
      (fun a b => manufacturer_counts_filtered t b ≤ manufacturer_counts_filtered t a) := by
  constructor
  · rw [top_manufacturers, List.length_take, h.1.length_eq]
  · exact h.2.take 10

set_option maxRecDepth 40000

/-- Concrete table for C4: manufacturers `"a"` and `"b"`, each with 50
rows surviving the filter, so their counts tie at 50. -/
def tableC4 : List Listing :=
  List.replicate 50 (Listing.mk (some 1) (some 1) (strCodes "a x") [] [] none) ++
  List.replicate 50 (Listing.mk (some 1) (some 1) (strCodes "b x") [] [] none)

unseal Rat.add Rat.sub Rat.mul Rat.inv in
/-- C4 counterexample: with the counts tied at 50, the arrangement
`["b", "a"]` satisfies everything pandas guarantees of the
`value_counts` index, yet its `head(10)` is not ordered by descending
count with ties broken by ascending name (`"b"` precedes `"a"`).  The
claimed tie-break is therefore not a property of the code. -/
theorem C4_topk_counterexample :
    CountDescArrangement tableC4 [strCodes "b", strCodes "a"] ∧
    ¬ ((top_manufacturers [strCodes "b", strCodes "a"]).Chain'
        (fun x y =>
          manufacturer_counts_filtered tableC4 y < manufacturer_counts_filtered tableC4 x ∨
          (manufacturer_counts_filtered tableC4 x = manufacturer_counts_filtered tableC4 y ∧
            strLe x y = true))) := by
  refine ⟨⟨?_, ?_⟩, ?_⟩
  · have hd : distinct_manufacturers tableC4 = [strCodes "a", strCodes "b"] := by decide
    rw [hd]
    exact List.Perm.swap _ _ _
  · exact List.chain'_cons.mpr ⟨by decide, List.chain'_singleton _⟩
  · intro h
    exact absurd (List.chain'_cons.mp h).1 (by decide)

unseal Rat.add Rat.sub Rat.mul Rat.inv in
/-- C4 witness: the amended claim applied to the concrete tied table and
the name-ascending arrangement. -/
theorem C4_topk_amended_witness :
    (top_manufacturers [strCodes "a", strCodes "b"]).length =
      min 10 (distinct_manufacturers tableC4).length ∧
    (top_manufacturers [strCodes "a", strCodes "b"]).Chain'
      (fun a b =>
        manufacturer_counts_filtered tableC4 b ≤ manufacturer_counts_filtered tableC4 a) :=
  C4_topk_amended tableC4 [strCodes "a", strCodes "b"]
    ⟨by rw [show distinct_manufacturers tableC4 = [strCodes "a", strCodes "b"] from by decide],
     List.chain'_cons.mpr ⟨by decide, List.chain'_singleton _⟩⟩

/-! ### C6: the manufacturer comparison branch -/

/-- C6 amended: equal selections always yield the warning and no chart
(and, the model being a total function, no exception); different
selections yield the violin chart over the rows of the two manufacturers
provided both selections are non-empty strings — Python truthiness makes
the branch produce neither chart nor warning when a selection is the
empty string. -/
theorem C6_comparison_amended (t : List Listing) (m1 m2 : PyStr) :
    (m1 = m2 → comparisonBranch t m1 m2 = CompareOutput.warning) ∧
    (m1 ≠ m2 → m1 ≠ [] → m2 ≠ [] →
      comparisonBranch t m1 m2 = CompareOutput.chart
        ((df_filtered_general t).filter
          (fun r => decide (manufacturer r = m1) || decide (manufacturer r = m2)))) := by
  constructor
  · intro heq
    subst heq
    simp [comparisonBranch]
  · intro hne h1 h2
    have ht1 : pyTruthy m1 = true := by simp [pyTruthy, List.isEmpty_iff, h1]
    have ht2 : pyTruthy m2 = true := by simp [pyTruthy, List.isEmpty_iff, h2]
    rw [comparisonBranch, if_pos (by simp [ht1, ht2, hne])]

/-- C6 witness: a concrete equal pair warns, a concrete different pair
charts. -/
theorem C6_comparison_amended_witness :
    comparisonBranch [] (strCodes "ford") (strCodes "ford") = CompareOutput.warning ∧
    comparisonBranch [] (strCodes "a") (strCodes "b") = CompareOutput.chart
      ((df_filtered_general []).filter
        (fun r => decide (manufacturer r = strCodes "a") ||
          decide (manufacturer r = strCodes "b"))) :=
  ⟨(C6_comparison_amended [] _ _).1 rfl,
   (C6_comparison_amended [] _ _).2 (by decide) (by decide) (by decide)⟩

/-- Concrete table for C6: the empty-string manufacturer (from a model
starting with a space) and `"ford"` both pass the filter, so both are
selector options. -/
def tableC6 : List Listing :=
  List.replicate 50 (Listing.mk (some 1) (some 1) (strCodes " x") [] [] none) ++
  List.replicate 50 (Listing.mk (some 1) (some 1) (strCodes "ford f") [] [] none)

unseal Rat.add Rat.sub Rat.mul Rat.inv in
/-- C6 counterexample: two different selector options, yet the branch
produces neither a chart nor a warning, because the empty-string
selection is falsy in `if manufacturer_1 and manufacturer_2 and ...`.
This refutes "when they differ, the comparison chart is produced". -/
theorem C6_comparison_counterexample :
    strCodes "" ∈ manufacturer_list tableC6 ∧
    strCodes "ford" ∈ manufacturer_list tableC6 ∧
    strCodes "" ≠ strCodes "ford" ∧
    comparisonBranch tableC6 (strCodes "") (strCodes "ford") = CompareOutput.noOutput := by
  refine ⟨by decide, by decide, by decide, by decide⟩

/-! ### C8: no feedback of filtering into bound computation -/

/-- Concrete table for C8: sixty rows of one manufacturer with prices
0, 1, ..., 59, all odometers present and equal. -/
def tableC8 : List Listing :=
  (List.range 60).map
    (fun k => Listing.mk (some (k : ℚ)) (some 10) (strCodes "m x") [] [] none)

unseal Rat.add Rat.sub Rat.mul Rat.inv in
/-- C8: PercentileBounds and the ManufacturerFrequencyTable come from the
full unfiltered table only.  First conjunct: the program's filtered set
is the filter of the full table `t` by the mask whose bound and
frequency parameters are `price_low t`, ..., `manufacturer_counts_full
t` — all functions of the full `t`.  Second conjunct: this is observably
not iterative narrowing — on a concrete table, re-deriving the
parameters from the filtered subset and filtering again would change the
result (the code's output is not a fixpoint of that narrowing step). -/
theorem C8_bounds_from_full_table :
    (∀ t : List Listing, df_filtered_general t =
      t.filter (rowPassWith (price_low t) (price_high t) (odometer_low t) (odometer_high t)
        (manufacturer_counts_full t))) ∧
    df_filtered_general tableC8 ≠
      (df_filtered_general tableC8).filter
        (rowPassWith (price_low (df_filtered_general tableC8))
          (price_high (df_filtered_general tableC8))
          (odometer_low (df_filtered_general tableC8))
          (odometer_high (df_filtered_general tableC8))
          (manufacturer_counts_full (df_filtered_general tableC8))) := by
  exact ⟨fun t => rfl, by decide⟩

/-! ### C9: the selector option list -/

/-- C9 amended: the option list is exactly the ascending, duplicate-free
list of the manufacturers occurring in the FilteredListingSet.  Each of
them does pass the frequency filter (count ≥ 50 in the full table), but
the converse direction of the original claim fails: a manufacturer can
pass the frequency filter and still be absent when none of its rows
survive the price/odometer predicates. -/
theorem C9_manufacturer_list_amended (t : List Listing) :
    (∀ m, m ∈ manufacturer_list t ↔ ∃ r ∈ df_filtered_general t, manufacturer r = m) ∧
    (manufacturer_list t).Nodup ∧
    (manufacturer_list t).Sorted (fun a b => strLe a b = true) ∧
    ∀ m ∈ manufacturer_list t, 50 ≤ manufacturer_counts_full t m := by
  have hperm := List.perm_insertionSort (fun a b : PyStr => strLe a b = true)
    ((df_filtered_general t).map manufacturer).dedup
  have hmem : ∀ m : PyStr,
      m ∈ manufacturer_list t ↔ ∃ r ∈ df_filtered_general t, manufacturer r = m := by
    intro m
    rw [manufacturer_list, hperm.mem_iff, List.mem_dedup, List.mem_map]
  refine ⟨hmem, (List.nodup_dedup _).perm hperm.symm, ?_, ?_⟩
  · haveI : IsTotal PyStr (fun a b => strLe a b = true) := ⟨strLe_total⟩
    haveI : IsTrans PyStr (fun a b => strLe a b = true) := ⟨strLe_trans⟩
    exact List.sorted_insertionSort _ _
  · intro m hm
    obtain ⟨r, hr, hrm⟩ := (hmem m).mp hm
    rw [df_filtered_general, List.mem_filter] at hr
    have hpass := (rowPassWith_true_iff _ _ _ _ _ r).mp hr.2
    rw [← hrm]
    exact hpass.2.2

/-- Concrete table for C9: fifty `"toyota"` rows, every one of them with
a missing odometer. -/
def tableC9 : List Listing :=
  List.replicate 50 (Listing.mk (some 5) none (strCodes "toyota c") [] [] none)

unseal Rat.add Rat.sub Rat.mul Rat.inv in
/-- C9 counterexample: `"toyota"` passes the frequency filter (50 ≥ 50
listings in the full table) yet is not offered by the selectors, because
none of its rows survive the odometer non-missing predicate; the option
list is not the sorted list of frequency-passing manufacturers. -/
theorem C9_manufacturer_list_counterexample :
    50 ≤ manufacturer_counts_full tableC9 (strCodes "toyota") ∧
    strCodes "toyota" ∉ manufacturer_list tableC9 := by
  refine ⟨by decide, by decide⟩
